import Mathlib

/-!
Shallow embedding of the `mlua_magic` proc-macro crate (src/src/lib.rs and
src/src/compile.rs).  The crate inspects Rust type declarations and emits
registration code for the mlua foreign-object protocol:

* `structure` (attribute macro): for each named field of a struct it emits an
  `add_field_method_get` registration whose getter clones the field; it panics
  (aborting expansion) when a field has no name.
* `enumeration` (attribute macro): for each unit variant of an enum it emits an
  `add_function` registration returning that variant, and a `FromLua`
  conversion that borrows a userdata handle and clones the value, or fails.
* `implementation` (attribute macro): for each `fn` item of an impl block it
  emits one registration, classified by receiver shape (`add_function`,
  `add_method`, `add_method_mut`), forwarding the identifier-bound typed
  parameters in declaration order.
* `compile` (function-like macro): validates the helper token list and emits
  the final `mlua::UserData` implementation wiring the selected helpers.

Syntax trees are modelled structurally (identifiers and type tokens as
strings); emitted token streams are modelled as lists of registration entries
plus the re-emitted original declaration.
-/

namespace MluaMagic

/-- A Rust type token, kept as its source text. -/
abbrev TypeToken := String

/-- One field of a struct or of an enum variant: `syn::Field`.  Tuple fields
have no identifier, hence the `Option`. -/
structure FieldDecl where
  ident : Option String
  ty : TypeToken
deriving DecidableEq, Repr

/-- The `syn::Fields` of a struct or variant: named, unnamed (tuple) or unit. -/
inductive SynFields where
  | named (fields : List FieldDecl)
  | unnamed (fields : List FieldDecl)
  | unit
deriving DecidableEq, Repr

/-- Iterating `&ast.fields` in syn yields the fields in declaration order
(and nothing for a unit struct). -/
def SynFields.toList : SynFields → List FieldDecl
  | .named fs => fs
  | .unnamed fs => fs
  | .unit => []

/-- A struct declaration: `syn::ItemStruct` (name and fields). -/
structure ItemStruct where
  ident : String
  fields : SynFields
deriving DecidableEq, Repr

/-- One enum variant: `syn::Variant` (name and its fields). -/
structure Variant where
  ident : String
  fields : SynFields
deriving DecidableEq, Repr

/-- An enum declaration: `syn::ItemEnum` (name and ordered variants). -/
structure ItemEnum where
  ident : String
  variants : List Variant
deriving DecidableEq, Repr

/-- The binding pattern of a typed fn argument: a single identifier
(`syn::Pat::Ident`) or any other (destructuring) pattern. -/
inductive Pat where
  | ident (name : String)
  | other
deriving DecidableEq, Repr

/-- One input of a fn signature: the receiver (`self`, with its mutability)
or a typed argument `pat : ty` (`syn::FnArg`). -/
inductive FnArg where
  | receiver (isMut : Bool)
  | typed (pat : Pat) (ty : TypeToken)
deriving DecidableEq, Repr

/-- A fn item inside an impl block: its name and its signature inputs in
declaration order. -/
structure ImplFn where
  ident : String
  inputs : List FnArg
deriving DecidableEq, Repr

/-- An item of an impl block: a fn (`ImplItem::Fn`) or anything else
(consts, types, ...), which the macro ignores. -/
inductive ImplItem where
  | fn (f : ImplFn)
  | other
deriving DecidableEq, Repr

/-- An impl block: `syn::ItemImpl` (the self type's token and the items). -/
structure ItemImpl where
  selfTy : String
  items : List ImplItem
deriving DecidableEq, Repr

/-- A registration entry pushed into the mlua field-table builder.  The source
only ever generates `get` entries; the `set` constructor models the
`add_field_method_set` capability of the host protocol (the corresponding
generation code is commented out in the source). -/
inductive FieldReg where
  | get (key : String) (field : String)
  | set (key : String) (field : String)
deriving DecidableEq, Repr

/-- Whether a field-table entry is a getter. -/
def FieldReg.isGet : FieldReg → Bool
  | .get _ _ => true
  | .set _ _ => false

/-- A registration entry pushed into the mlua method-table builder:
`addFunction` is a static call forwarding to `owner::fnName(args)`;
`addFunctionVariant` is the zero-argument unit-variant constructor returning
`owner::variant`; `addMethod` / `addMethodMut` borrow the receiver
(immutably / mutably) and call `this.fnName(args)`. -/
inductive MethodReg where
  | addFunction (key : String) (owner : String) (fnName : String) (params : List (String × TypeToken))
  | addFunctionVariant (key : String) (owner : String) (variant : String)
  | addMethod (key : String) (fnName : String) (params : List (String × TypeToken))
  | addMethodMut (key : String) (fnName : String) (params : List (String × TypeToken))
deriving DecidableEq, Repr

/-- The key under which a method-table entry is registered. -/
def MethodReg.key : MethodReg → String
  | .addFunction k _ _ _ => k
  | .addFunctionVariant k _ _ => k
  | .addMethod k _ _ => k
  | .addMethodMut k _ _ => k

/-- The parameter list forwarded by a method-table entry (the unit-variant
constructor closure takes the empty tuple). -/
def MethodReg.params : MethodReg → List (String × TypeToken)
  | .addFunction _ _ _ ps => ps
  | .addFunctionVariant _ _ _ => []
  | .addMethod _ _ ps => ps
  | .addMethodMut _ _ ps => ps

/-- The three registration kinds of the spec: static call (no receiver),
read call (immutable receiver), mutating call (mutable receiver). -/
inductive RegKind where
  | staticCall
  | readCall
  | mutCall
deriving DecidableEq, Repr

/-- The kind of a method-table entry. -/
def MethodReg.kind : MethodReg → RegKind
  | .addFunction _ _ _ _ => .staticCall
  | .addFunctionVariant _ _ _ => .staticCall
  | .addMethod _ _ _ => .readCall
  | .addMethodMut _ _ _ => .mutCall

/-- A build-time failure of an extractor macro.  `fieldMissingName i msg`
models the `expect("Field must have a name")` panic raised while processing
the field at index `i`. -/
inductive MacroError where
  | fieldMissingName (index : Nat) (message : String)
deriving DecidableEq, Repr

/-- Output of the `structure` macro: the original declaration re-emitted
first, then the generated `_to_mlua_fields` helper holding the field-table
registrations, appended after it. -/
structure StructOutput where
  original : ItemStruct
  fieldRegs : List FieldReg
deriving DecidableEq, Repr

/-- The loop body of the `structure` macro over the declared fields, carrying
the index of the field under scrutiny: a field without a name aborts with
`fieldMissingName` (the source panics via `expect`), a named field `n` pushes
the `add_field_method_get` entry keyed by `n` reading field `n`. -/
def structureRegsFrom : Nat → List FieldDecl → Except MacroError (List FieldReg)
  | _, [] => .ok []
  | i, f :: fs =>
    match f.ident with
    | none => .error (.fieldMissingName i "Field must have a name")
    | some n =>
      match structureRegsFrom (i + 1) fs with
      | .error e => .error e
      | .ok regs => .ok (.get n n :: regs)

/-- The `structure` attribute macro (src/src/lib.rs, `pub fn structure`):
walks the struct's fields building one getter registration per named field,
aborting on an unnamed field, and on success re-emits the original
declaration followed by the `_to_mlua_fields` helper. -/
def structureAttr (ast : ItemStruct) : Except MacroError StructOutput :=
  match structureRegsFrom 0 ast.fields.toList with
  | .error e => .error e
  | .ok regs => .ok { original := ast, fieldRegs := regs }

/-- The loop of the `enumeration` macro over the declared variants: only a
variant whose fields are `Fields::Unit` produces a registration — an
`add_function` entry keyed by the variant's name whose closure returns
`Name::Variant`.  Variants carrying data (named or tuple fields) are skipped
with no error. -/
def variantRegistrations (name : String) : List Variant → List MethodReg
  | [] => []
  | v :: vs =>
    match v.fields with
    | .unit => .addFunctionVariant v.ident name v.ident :: variantRegistrations name vs
    | _ => variantRegistrations name vs

/-- Output of the `enumeration` macro: the original declaration re-emitted
first, then the `_to_mlua_variants` helper holding the constructor
registrations (the generated `FromLua` conversion is modelled separately by
`from_lua`). -/
structure EnumOutput where
  original : ItemEnum
  variantRegs : List MethodReg
deriving DecidableEq, Repr

/-- The `enumeration` attribute macro (src/src/lib.rs, `pub fn enumeration`):
registers every unit variant as a static constructor and re-emits the
original declaration followed by the helper.  It is total: no input enum
makes it fail. -/
def enumeration (ast : ItemEnum) : EnumOutput :=
  { original := ast, variantRegs := variantRegistrations ast.ident ast.variants }

/-- The runtime value of an enum whose unit variant `tag` was constructed by
a generated constructor closure (`Ok(Name::Variant)`). -/
structure EnumValue where
  tag : String
deriving DecidableEq, Repr

/-- A value of the scripting runtime as seen by the generated `from_lua`:
either a userdata handle — with `backing = some v` when the handle is backed
by the expected native type holding `v`, `none` otherwise — or any
non-userdata value.  `typeName` is the handle's observed Lua type name. -/
inductive LuaValue (α : Type) where
  | userData (backing : Option α) (typeName : String)
  | other (typeName : String)
deriving DecidableEq, Repr

/-- The backing of a handle by the expected native type, when any. -/
def LuaValue.backing? {α : Type} : LuaValue α → Option α
  | .userData b _ => b
  | .other _ => none

/-- Errors of the scripting boundary.  `fromLuaConversionError` models
`mlua::Error::FromLuaConversionError { from, to, message }`, built explicitly
by the generated conversion; `userDataTypeMismatch` models the error the host
returns from `AnyUserData::borrow::<T>()` when the userdata is backed by a
different type — a fieldless error carrying no type names. -/
inductive LuaError where
  | fromLuaConversionError (fromTypeName : String) (toTypeName : String) (message : Option String)
  | userDataTypeMismatch
deriving DecidableEq, Repr

/-- The pair (observed type name, expected type name) carried by an error,
when the error names them. -/
def LuaError.namesTypes : LuaError → Option (String × String)
  | .fromLuaConversionError f t _ => some (f, t)
  | .userDataTypeMismatch => none

/-- The generated `FromLua::from_lua` for the enum named `name`
(src/src/lib.rs, inside `enumeration`): on a userdata value it borrows the
inner enum (`ud.borrow::<Name>()?`) — succeeding with a clone of the owned
value, or propagating the host's type-mismatch error — and on any other
value it builds a `FromLuaConversionError` from the observed type name, the
expected name and a message. -/
def from_lua (name : String) : LuaValue EnumValue → Except LuaError EnumValue
  | .userData backing _ =>
    match backing with
    | some borrowed => .ok borrowed
    | none => .error .userDataTypeMismatch
  | .other tn =>
    .error (.fromLuaConversionError tn name (some ("expected userdata for " ++ name)))

/-- Semantics of the closure generated for a unit-variant constructor:
`|_, (): ()| Ok(Name::Variant)` — it takes no argument and returns the
freshly constructed variant value. -/
def runVariantConstructor (_name : String) (variant : String) : Except LuaError EnumValue :=
  .ok { tag := variant }

/-- The host protocol's generic object-wrapping facility: boxing a native
value as a userdata handle backed by it (delegated to mlua, not generated by
this crate). -/
def wrapUserData {α : Type} (typeName : String) (v : α) : LuaValue α :=
  .userData (some v) typeName

/-- The `filter_map` the `implementation` macro runs over a fn's signature
inputs: the receiver is skipped, and a typed argument contributes its
(name, type token) pair exactly when its binding pattern is a single
identifier (`Pat::Ident`); any other pattern yields nothing. -/
def paramOf : FnArg → Option (String × TypeToken)
  | .typed (.ident n) ty => some (n, ty)
  | .typed .other _ => none
  | .receiver _ => none

/-- The forwarded parameter list of a routine: identifier-bound typed
arguments, in declaration order, with their exact type tokens. -/
def identParams (inputs : List FnArg) : List (String × TypeToken) :=
  inputs.filterMap paramOf

/-- Model of `syn::Signature::receiver()`: the receiver, if the first input
is one, together with its mutability (`receiver.mutability.is_some()`). -/
def ImplFn.receiver (f : ImplFn) : Option Bool :=
  match f.inputs.head? with
  | some (.receiver m) => some m
  | _ => none

/-- The single registration the `implementation` macro emits for one fn item:
`add_method_mut` for a mutable receiver, `add_method` for an immutable
receiver, `add_function` (calling `Owner::fn(args)`) for no receiver; each
forwards the identifier-bound parameters in declaration order. -/
def methodRegOf (owner : String) (f : ImplFn) : MethodReg :=
  match f.receiver with
  | some true => .addMethodMut f.ident f.ident (identParams f.inputs)
  | some false => .addMethod f.ident f.ident (identParams f.inputs)
  | none => .addFunction f.ident owner f.ident (identParams f.inputs)

/-- The loop of the `implementation` macro over the impl block's items: each
`ImplItem::Fn` pushes exactly one registration; every other item kind is
ignored. -/
def methodRegistrations (owner : String) : List ImplItem → List MethodReg
  | [] => []
  | .fn f :: rest => methodRegOf owner f :: methodRegistrations owner rest
  | .other :: rest => methodRegistrations owner rest

/-- The fn items of an impl block, in order. -/
def implFns : List ImplItem → List ImplFn
  | [] => []
  | .fn f :: rest => f :: implFns rest
  | .other :: rest => implFns rest

/-- Output of the `implementation` macro: the original impl block re-emitted
first, then the `_to_mlua_methods` helper holding the method registrations,
appended after it. -/
structure ImplOutput where
  original : ItemImpl
  methodRegs : List MethodReg
deriving DecidableEq, Repr

/-- The `implementation` attribute macro (src/src/lib.rs,
`pub fn implementation`).  It is total: no impl block makes it fail. -/
def implementation (ast : ItemImpl) : ImplOutput :=
  { original := ast, methodRegs := methodRegistrations ast.selfTy ast.items }

/-- The receiver-shape classification of the spec: no receiver is a static
call, an immutable receiver a read call, a mutable receiver a mutating
call.  Stated from the spec's words, to be compared with the kind of the
entry the source emits. -/
def specReceiverKind : Option Bool → RegKind
  | none => .staticCall
  | some false => .readCall
  | some true => .mutCall

/-- A generation-time error of the `compile` macro: `syn::Error::new(span,
message)` rendered as a `compile_error!` — `atToken` is the token whose span
the diagnostic is attached to. -/
structure CompileError where
  atToken : String
  message : String
deriving DecidableEq, Repr

/-- The diagnostic message of the `compile` macro for an unknown helper
token; it spells out the accepted vocabulary. -/
def unknownHelperMessage : String :=
  "Unknown helper: expected \x27fields\x27, \x27methods\x27, or \x27variants\x27"

/-- The accepted helper vocabulary of the `compile` macro. -/
def helperVocab : List String :=
  ["fields", "methods", "variants"]

/-- A call to one of the generated helper routines, as wired by the emitted
`mlua::UserData` implementation. -/
inductive HelperCall where
  | toMluaFields
  | toMluaMethods
  | toMluaVariants
deriving DecidableEq, Repr

/-- The registration unit emitted by the `compile` macro: the
`impl mlua::UserData for TypeName` block, whose `add_fields` body holds the
calls issued to the field-table builder and whose `add_methods` body holds
the calls issued to the method-table builder, in emission order. -/
structure RegistrationUnit where
  typeName : String
  addFieldsBody : List HelperCall
  addMethodsBody : List HelperCall
deriving DecidableEq, Repr

/-- The flag-setting loop of the `compile` macro over the helper tokens:
each recognized token sets its flag; the first unrecognized token aborts
with the diagnostic attached to that token's span. -/
def checkHelpers : Bool → Bool → Bool → List String → Except CompileError (Bool × Bool × Bool)
  | hf, hm, hv, [] => .ok (hf, hm, hv)
  | hf, hm, hv, h :: rest =>
    if h = "fields" then checkHelpers true hm hv rest
    else if h = "methods" then checkHelpers hf true hv rest
    else if h = "variants" then checkHelpers hf hm true rest
    else .error { atToken := h, message := unknownHelperMessage }

/-- The registration unit assembled for a validated selection: `add_fields`
calls the Fields helper iff `fields` was selected, and `add_methods` calls
the Methods helper iff `methods` was selected, followed by the Variants
helper iff `variants` was selected. -/
def assembledUnit (typeName : String) (helpers : List String) : RegistrationUnit :=
  { typeName := typeName
    addFieldsBody := if helpers.contains "fields" then [.toMluaFields] else []
    addMethodsBody :=
      (if helpers.contains "methods" then [.toMluaMethods] else [])
        ++ (if helpers.contains "variants" then [.toMluaVariants] else []) }

/-- The `compile` function-like macro (src/src/lib.rs, `pub fn compile`):
validates the helper tokens, then emits the `mlua::UserData` implementation
wiring the selected helper calls; on an unknown token it emits only the
compile error — no registration unit. -/
def compile (typeName : String) (helpers : List String) : Except CompileError RegistrationUnit :=
  match checkHelpers false false false helpers with
  | .error e => .error e
  | .ok (hf, hm, hv) =>
    .ok { typeName := typeName
          addFieldsBody := if hf then [.toMluaFields] else []
          addMethodsBody :=
            (if hm then [.toMluaMethods] else [])
              ++ (if hv then [.toMluaVariants] else []) }

/-- Semantics of the getter closure generated for a field: it receives a
read-only view of the instance (modelled as its field valuation) and returns
a clone of the named field's current value — on plain data, a value equal to
the stored one — together with the instance view, which it cannot modify. -/
def runFieldGetter {V : Type} (fieldName : String) (this : String → V) :
    Except LuaError (V × (String → V)) :=
  .ok (this fieldName, this)

/-- Two consecutive invocations of the same getter, threading the instance
view returned by the first into the second; yields both observed values. -/
def runFieldGetterTwice {V : Type} (fieldName : String) (this : String → V) :
    Except LuaError (V × V) :=
  match runFieldGetter fieldName this with
  | .error e => .error e
  | .ok (v1, this1) =>
    match runFieldGetter fieldName this1 with
    | .error e => .error e
    | .ok (v2, _) => .ok (v1, v2)

/-- The getter entries the spec predicts for a list of field names: one per
name, in order, keyed by the name and reading the field of the same name. -/
def getterEntries (names : List String) : List FieldReg :=
  names.map fun n => .get n n

/-- Whether every field of a list carries a name. -/
def allNamed (fs : List FieldDecl) : Bool :=
  fs.all fun f => f.ident.isSome

/-- The unit variants of a variant list, in declaration order. -/
def unitVariants (vs : List Variant) : List Variant :=
  vs.filter fun v => v.fields == SynFields.unit

/-- The constructor entries the spec predicts for an enum: one zero-argument
`add_function` entry per unit variant, in order, keyed by the variant name. -/
def unitVariantCtors (name : String) (vs : List Variant) : List MethodReg :=
  (unitVariants vs).map fun v => .addFunctionVariant v.ident name v.ident

/-- The error the amended recovery contract predicts: for a userdata handle
not backed by the expected type, the host's fieldless type-mismatch error;
for a non-userdata value, a conversion error naming the observed and the
expected type. -/
def expectedRecoveryError (name : String) : LuaValue EnumValue → LuaError
  | .userData _ _ => .userDataTypeMismatch
  | .other tn => .fromLuaConversionError tn name (some ("expected userdata for " ++ name))

/-- The registration entry the spec predicts for a routine, stated from the
spec's receiver-shape classification. -/
def specEntry (owner : String) (f : ImplFn) : MethodReg :=
  match specReceiverKind f.receiver with
  | .staticCall => .addFunction f.ident owner f.ident (identParams f.inputs)
  | .readCall => .addMethod f.ident f.ident (identParams f.inputs)
  | .mutCall => .addMethodMut f.ident f.ident (identParams f.inputs)

/-- The type token of any typed argument (identifier-bound or not). -/
def FnArg.tyOf : FnArg → Option TypeToken
  | .typed _ ty => some ty
  | .receiver _ => none

/-- The type tokens of all typed arguments of a signature, in declaration
order, receivers excluded. -/
def declaredTypes (inputs : List FnArg) : List TypeToken :=
  inputs.filterMap FnArg.tyOf

/-- Whether every token of a list belongs to the helper vocabulary. -/
def validTokens (ts : List String) : Bool :=
  ts.all fun t => helperVocab.contains t

/-- The `Player` struct of tests/example.rs. -/
def playerStruct : ItemStruct :=
  { ident := "Player"
    fields := .named
      [ { ident := some "name", ty := "String" }
      , { ident := some "hp", ty := "i32" }
      , { ident := some "status", ty := "PlayerStatus" } ] }

/-- The `PlayerStatus` enum of tests/example.rs: three unit variants. -/
def playerStatusEnum : ItemEnum :=
  { ident := "PlayerStatus"
    variants :=
      [ { ident := "Idle", fields := .unit }
      , { ident := "Walking", fields := .unit }
      , { ident := "Attacking", fields := .unit } ] }

/-- The `impl Player` block of tests/example.rs: a static `new`, a mutating
`take_damage`, a reading `is_alive`. -/
def playerImpl : ItemImpl :=
  { selfTy := "Player"
    items :=
      [ .fn { ident := "new", inputs := [.typed (.ident "name") "String"] }
      , .fn { ident := "take_damage", inputs := [.receiver true, .typed (.ident "amount") "i32"] }
      , .fn { ident := "is_alive", inputs := [.receiver false] } ] }

/-- A struct whose second field has no name (a tuple-style field), used to
exercise the failure path of the field extractor. -/
def brokenStruct : ItemStruct :=
  { ident := "Broken"
    fields := .named
      [ { ident := some "a", ty := "i32" }
      , { ident := none, ty := "i32" } ] }

/-- The field loop succeeds on an all-named field list and produces exactly
the getter entries of the names, in order. -/
theorem structureRegsFrom_ok (fs : List FieldDecl) :
    ∀ k names, fs.map FieldDecl.ident = names.map some →
      structureRegsFrom k fs = .ok (getterEntries names) := by
  induction fs with
  | nil =>
    intro k names h
    have : names = [] := by
      cases names with
      | nil => rfl
      | cons n ns => simp at h
    subst this
    rfl
  | cons f fs ih =>
    intro k names h
    cases names with
    | nil => simp at h
    | cons n ns =>
      simp only [List.map_cons, List.cons.injEq] at h
      obtain ⟨h1, h2⟩ := h
      simp only [structureRegsFrom, h1, ih (k + 1) ns h2, getterEntries, List.map_cons]

/-- The field loop aborts at the first unnamed field, reporting its index
(offset by the start index of the walk). -/
theorem structureRegsFrom_error (fs : List FieldDecl) :
    ∀ k i fd, fs[i]? = some fd → fd.ident = none → allNamed (fs.take i) = true →
      structureRegsFrom k fs = .error (.fieldMissingName (k + i) "Field must have a name") := by
  induction fs with
  | nil =>
    intro k i fd hi _ _
    simp at hi
  | cons f fs ih =>
    intro k i fd hi hnone hfront
    cases i with
    | zero =>
      simp only [List.getElem?_cons_zero, Option.some.injEq] at hi
      subst hi
      simp [structureRegsFrom, hnone]
    | succ j =>
      simp only [List.getElem?_cons_succ] at hi
      simp only [List.take_succ_cons, allNamed, List.all_cons, Bool.and_eq_true] at hfront
      obtain ⟨hf, hfront⟩ := hfront
      cases hident : f.ident with
      | none => simp [hident] at hf
      | some n =>
        have := ih (k + 1) j fd hi hnone hfront
        simp only [structureRegsFrom, hident, this]
        have : k + 1 + j = k + (j + 1) := by omega
        rw [this]

/-- The variant loop emits exactly the unit-variant constructors, in order. -/
theorem variantRegistrations_eq (name : String) (vs : List Variant) :
    variantRegistrations name vs = unitVariantCtors name vs := by
  induction vs with
  | nil => rfl
  | cons v vs ih =>
    cases hf : v.fields with
    | unit =>
      simp [variantRegistrations, hf, unitVariantCtors, unitVariants, List.filter_cons, ih]
    | named gs =>
      simpa [variantRegistrations, hf, unitVariantCtors, unitVariants, List.filter_cons] using ih
    | unnamed gs =>
      simpa [variantRegistrations, hf, unitVariantCtors, unitVariants, List.filter_cons] using ih

/-- A unit variant of the list contributes its constructor entry. -/
theorem mem_variantRegistrations (name : String) (vs : List Variant) (v : Variant)
    (hmem : v ∈ vs) (hunit : v.fields = SynFields.unit) :
    MethodReg.addFunctionVariant v.ident name v.ident ∈ variantRegistrations name vs := by
  induction vs with
  | nil => simp at hmem
  | cons w vs ih =>
    rcases List.mem_cons.mp hmem with h | h
    · subst h
      simp [variantRegistrations, hunit]
    · cases hw : w.fields with
      | unit =>
        simp only [variantRegistrations, hw, List.mem_cons]
        exact Or.inr (ih h)
      | named gs => simpa [variantRegistrations, hw] using ih h
      | unnamed gs => simpa [variantRegistrations, hw] using ih h

/-- The method loop emits the per-routine registration of each fn item. -/
theorem methodRegistrations_eq_map (owner : String) (items : List ImplItem) :
    methodRegistrations owner items = (implFns items).map (methodRegOf owner) := by
  induction items with
  | nil => rfl
  | cons it items ih =>
    cases it with
    | fn f => simp [methodRegistrations, implFns, ih]
    | other => simp [methodRegistrations, implFns, ih]

/-- The emitted registration coincides with the spec's receiver-shape
classification. -/
theorem methodRegOf_eq_specEntry (owner : String) (f : ImplFn) :
    methodRegOf owner f = specEntry owner f := by
  rcases h : f.receiver with _ | b
  · simp [methodRegOf, specEntry, specReceiverKind, h]
  · cases b <;> simp [methodRegOf, specEntry, specReceiverKind, h]

/-- Kind, key and parameter list of the spec-side entry. -/
theorem specEntry_spec (owner : String) (f : ImplFn) :
    (specEntry owner f).kind = specReceiverKind f.receiver
    ∧ (specEntry owner f).key = f.ident
    ∧ (specEntry owner f).params = identParams f.inputs := by
  rcases h : f.receiver with _ | b
  · simp [specEntry, specReceiverKind, h, MethodReg.kind, MethodReg.key, MethodReg.params]
  · cases b <;>
      simp [specEntry, specReceiverKind, h, MethodReg.kind, MethodReg.key, MethodReg.params]

/-- An argument maps to a forwarded pair exactly when it is that typed
argument with the identifier pattern. -/
theorem paramOf_eq_some (a : FnArg) (n : String) (ty : TypeToken) :
    paramOf a = some (n, ty) ↔ a = .typed (.ident n) ty := by
  cases a with
  | receiver m => simp [paramOf]
  | typed p t => cases p <;> simp [paramOf]

/-- A pair is forwarded exactly when the signature declares that
identifier-bound typed argument. -/
theorem mem_identParams (inputs : List FnArg) (n : String) (ty : TypeToken) :
    (n, ty) ∈ identParams inputs ↔ FnArg.typed (Pat.ident n) ty ∈ inputs := by
  simp only [identParams, List.mem_filterMap]
  constructor
  · rintro ⟨a, ha, hpa⟩
    rw [paramOf_eq_some] at hpa
    exact hpa ▸ ha
  · intro h
    exact ⟨_, h, (paramOf_eq_some _ n ty).mpr rfl⟩

/-- The forwarded type tokens are a subsequence of the declared type tokens:
forwarding preserves declaration order and drops nothing else. -/
theorem identParams_types_sublist (inputs : List FnArg) :
    List.Sublist ((identParams inputs).map Prod.snd) (declaredTypes inputs) := by
  induction inputs with
  | nil => simp [identParams, declaredTypes]
  | cons a inputs ih =>
    cases a with
    | receiver m =>
      simpa [identParams, declaredTypes, List.filterMap_cons, paramOf, FnArg.tyOf] using ih
    | typed p t =>
      cases p with
      | ident n =>
        simpa [identParams, declaredTypes, List.filterMap_cons, paramOf, FnArg.tyOf]
          using List.Sublist.cons₂ t ih
      | other =>
        simp only [identParams, declaredTypes, List.filterMap_cons, paramOf, FnArg.tyOf]
        exact List.Sublist.cons t ih

/-- On a list of recognized tokens the flag loop succeeds, each flag ending
up set exactly when its token occurs (or the flag was already set). -/
theorem checkHelpers_ok (ts : List String) :
    ∀ hf hm hv, validTokens ts = true →
      checkHelpers hf hm hv ts =
        .ok (hf || ts.contains "fields", hm || ts.contains "methods",
          hv || ts.contains "variants") := by
  induction ts with
  | nil =>
    intro hf hm hv _
    simp [checkHelpers]
  | cons t ts ih =>
    intro hf hm hv hvalid
    simp only [validTokens, List.all_cons, Bool.and_eq_true] at hvalid
    obtain ⟨ht, hrest⟩ := hvalid
    have hrest' : validTokens ts = true := hrest
    have hcases : t = "fields" ∨ t = "methods" ∨ t = "variants" := by
      simpa [helperVocab] using ht
    rcases hcases with h | h | h <;> subst h <;>
      simp [checkHelpers, ih _ _ _ hrest']

/-- The flag loop aborts at the first unrecognized token, whatever valid
tokens precede it, whatever follows it and whatever the flags hold. -/
theorem checkHelpers_error (bad : String) (post : List String)
    (hbad : helperVocab.contains bad = false) (pre : List String) :
    ∀ hf hm hv, validTokens pre = true →
      checkHelpers hf hm hv (pre ++ bad :: post) =
        .error { atToken := bad, message := unknownHelperMessage } := by
  have hne : ¬bad = "fields" ∧ ¬bad = "methods" ∧ ¬bad = "variants" := by
    simpa [helperVocab] using hbad
  induction pre with
  | nil =>
    intro hf hm hv _
    simp [checkHelpers, hne.1, hne.2.1, hne.2.2]
  | cons t pre ih =>
    intro hf hm hv hvalid
    simp only [validTokens, List.all_cons, Bool.and_eq_true] at hvalid
    obtain ⟨ht, hrest⟩ := hvalid
    have hrest' : validTokens pre = true := hrest
    have hcases : t = "fields" ∨ t = "methods" ∨ t = "variants" := by
      simpa [helperVocab] using ht
    rcases hcases with h | h | h <;> subst h <;>
      simp [checkHelpers, ih _ _ _ hrest']

/-- Claim C1: every fn item of a processed method block yields exactly one
registration entry (the loop maps one entry per routine); the entry's kind
follows the receiver shape — no receiver gives a static call registered via
add_function invoking the owner type's routine, an immutable receiver a read
call (add_method), a mutable receiver a mutating call (add_method_mut) — and
the forwarded signature carries the declared parameters in declaration
order. -/
theorem implementation_classifies_by_receiver (i : ItemImpl) (f : ImplFn) :
    (implementation i).methodRegs = (implFns i.items).map (methodRegOf i.selfTy)
    ∧ methodRegOf i.selfTy f = specEntry i.selfTy f
    ∧ (specEntry i.selfTy f).kind = specReceiverKind f.receiver
    ∧ (specEntry i.selfTy f).key = f.ident
    ∧ (specEntry i.selfTy f).params = identParams f.inputs := by
  obtain ⟨h1, h2, h3⟩ := specEntry_spec i.selfTy f
  exact ⟨methodRegistrations_eq_map i.selfTy i.items, methodRegOf_eq_specEntry i.selfTy f,
    h1, h2, h3⟩

/-- Claim C3: for a unit variant of a processed enum, the generated
constructor entry is registered, invoking it yields the variant's value, and
passing the resulting userdata handle through the generated value-recovery
conversion returns an owned value tag-equal to the variant. -/
theorem unit_variant_constructor_roundtrip (e : ItemEnum) (v : Variant)
    (hmem : v ∈ e.variants) (hunit : v.fields = SynFields.unit) :
    MethodReg.addFunctionVariant v.ident e.ident v.ident ∈ (enumeration e).variantRegs
    ∧ runVariantConstructor e.ident v.ident = .ok { tag := v.ident }
    ∧ from_lua e.ident (wrapUserData e.ident { tag := v.ident }) = .ok { tag := v.ident }
    ∧ ({ tag := v.ident } : EnumValue).tag = v.ident :=
  ⟨mem_variantRegistrations e.ident e.variants v hmem hunit, rfl, rfl, rfl⟩

/-- Witness for C3 at the Idle variant of the PlayerStatus enum of the
repository's test. -/
theorem unit_variant_constructor_roundtrip_witness :
    ({ ident := "Idle", fields := SynFields.unit } : Variant) ∈ playerStatusEnum.variants
    ∧ ({ ident := "Idle", fields := SynFields.unit } : Variant).fields = SynFields.unit
    ∧ (MethodReg.addFunctionVariant "Idle" "PlayerStatus" "Idle"
        ∈ (enumeration playerStatusEnum).variantRegs
    ∧ runVariantConstructor "PlayerStatus" "Idle" = .ok { tag := "Idle" }
    ∧ from_lua "PlayerStatus" (wrapUserData "PlayerStatus" { tag := "Idle" }) =
        .ok { tag := "Idle" }
    ∧ ({ tag := "Idle" } : EnumValue).tag = "Idle") := by
  refine ⟨by decide, rfl, ?_⟩
  exact unit_variant_constructor_roundtrip playerStatusEnum
    { ident := "Idle", fields := SynFields.unit } (by decide) rfl

/-- Claim C4: the variant extractor generates exactly one zero-argument
constructor entry per unit variant, keyed by the variant's name, in
declaration order, and none for data-carrying variants; the extractor is
total, so no error or diagnostic is ever raised. -/
theorem enumeration_registers_exactly_unit_variants (e : ItemEnum) :
    (enumeration e).variantRegs = unitVariantCtors e.ident e.variants
    ∧ (enumeration e).variantRegs.length = (unitVariants e.variants).length := by
  have h : (enumeration e).variantRegs = unitVariantCtors e.ident e.variants :=
    variantRegistrations_eq e.ident e.variants
  refine ⟨h, ?_⟩
  simp [h, unitVariantCtors]

/-- Claim C9: a parameter is forwarded exactly when its binding pattern is a
single identifier; the forwarded parameters keep declaration order and exact
type tokens (their type tokens form a subsequence of all declared type
tokens); routines with dropped parameters still yield their entry and no
error arises (the extractor is total, one entry per fn item). -/
theorem parameters_forwarded_iff_identifier_pattern (i : ItemImpl) (owner : String)
    (f : ImplFn) (n : String) (ty : TypeToken) :
    (methodRegOf owner f).params = identParams f.inputs
    ∧ ((n, ty) ∈ identParams f.inputs ↔ FnArg.typed (Pat.ident n) ty ∈ f.inputs)
    ∧ List.Sublist ((identParams f.inputs).map Prod.snd) (declaredTypes f.inputs)
    ∧ (implementation i).methodRegs.length = (implFns i.items).length := by
  refine ⟨?_, mem_identParams f.inputs n ty, identParams_types_sublist f.inputs, ?_⟩
  · rw [methodRegOf_eq_specEntry]
    exact (specEntry_spec owner f).2.2
  · simp [implementation, methodRegistrations_eq_map]

/-- A sample instance view for exercising a getter on a concrete input. -/
def sampleView : String → Nat :=
  fun _ => 0

/-- Claim C2: a record whose fields are all named (uniquely) yields exactly
one getter entry per field, in declaration order, keyed by the field's name;
a getter, given an instance view, returns a clone of the field's current
value and leaves the view unchanged, so repeated invocation returns the same
value; no setter entry is produced. -/
theorem record_fields_generate_getters {V : Type} (s : ItemStruct) (names : List String)
    (_hnodup : names.Nodup)
    (h : s.fields.toList.map FieldDecl.ident = names.map some)
    (n0 : String) (view : String → V) :
    structureAttr s = .ok { original := s, fieldRegs := getterEntries names }
    ∧ (getterEntries names).length = s.fields.toList.length
    ∧ (getterEntries names).all FieldReg.isGet = true
    ∧ runFieldGetter n0 view = .ok (view n0, view)
    ∧ runFieldGetterTwice n0 view = .ok (view n0, view n0) := by
  refine ⟨?_, ?_, ?_, rfl, rfl⟩
  · simp [structureAttr, structureRegsFrom_ok s.fields.toList 0 names h]
  · have hlen := congrArg List.length h
    simp only [List.length_map] at hlen
    simp [getterEntries, hlen]
  · simp [getterEntries, List.all_eq_true, FieldReg.isGet]

/-- Witness for C2 at the Player struct of the repository's test. -/
theorem record_fields_generate_getters_witness :
    (["name", "hp", "status"] : List String).Nodup
    ∧ playerStruct.fields.toList.map FieldDecl.ident =
        (["name", "hp", "status"] : List String).map some
    ∧ (structureAttr playerStruct =
          .ok { original := playerStruct, fieldRegs := getterEntries ["name", "hp", "status"] }
    ∧ (getterEntries ["name", "hp", "status"]).length = playerStruct.fields.toList.length
    ∧ (getterEntries ["name", "hp", "status"]).all FieldReg.isGet = true
    ∧ runFieldGetter "hp" sampleView = .ok (sampleView "hp", sampleView)
    ∧ runFieldGetterTwice "hp" sampleView = .ok (sampleView "hp", sampleView "hp")) := by
  refine ⟨by decide, by decide, ?_⟩
  exact record_fields_generate_getters playerStruct ["name", "hp", "status"]
    (by decide) (by decide) "hp" sampleView

/-- Claim C5, counterexample: a userdata handle not backed by the expected
tagged type makes the generated recovery fail with the host's borrow error,
which names neither the observed nor the expected type — refuting the claim
that the error always names both. -/
theorem recovery_error_nameless_counterexample :
    (LuaValue.userData (none : Option EnumValue) "Player").backing? = none
    ∧ from_lua "PlayerStatus" (LuaValue.userData (none : Option EnumValue) "Player") =
        .error .userDataTypeMismatch
    ∧ LuaError.namesTypes .userDataTypeMismatch = none :=
  ⟨rfl, rfl, rfl⟩

/-- Claim C5 as amended: on any value not backed by the expected tagged type
the recovery fails with a typed error and never returns a default value: a
conversion error naming the observed and the expected type for non-userdata
values, the host's nameless type-mismatch error for wrongly backed userdata. -/
theorem recovery_fails_typed_never_default (name tn : String) (v : LuaValue EnumValue)
    (h : v.backing? = none) :
    from_lua name v = .error (expectedRecoveryError name v)
    ∧ (expectedRecoveryError name (.other tn)).namesTypes = some (tn, name)
    ∧ (expectedRecoveryError name (.userData (none : Option EnumValue) tn)).namesTypes
        = none := by
  refine ⟨?_, rfl, rfl⟩
  cases v with
  | userData b tnn =>
    simp only [LuaValue.backing?] at h
    subst h
    rfl
  | other tnn => rfl

/-- Witness for the amended C5 at a concrete non-userdata value. -/
theorem recovery_fails_typed_never_default_witness :
    (LuaValue.other "number" : LuaValue EnumValue).backing? = none
    ∧ (from_lua "PlayerStatus" (LuaValue.other "number") =
          .error (expectedRecoveryError "PlayerStatus" (LuaValue.other "number"))
    ∧ (expectedRecoveryError "PlayerStatus" (LuaValue.other "number")).namesTypes =
        some ("number", "PlayerStatus")
    ∧ (expectedRecoveryError "PlayerStatus"
          (LuaValue.userData (none : Option EnumValue) "number")).namesTypes = none) := by
  refine ⟨rfl, ?_⟩
  exact recovery_fails_typed_never_default "PlayerStatus" "number" (LuaValue.other "number") rfl

/-- Claim C6: an assembly invocation whose token list holds a token outside
the vocabulary fails with a diagnostic attached to the first offending
token, carrying the message spelling out the accepted vocabulary, and emits
no registration unit (the result is the error alone). -/
theorem unknown_helper_token_fails (tn bad : String) (pre post : List String)
    (hpre : validTokens pre = true) (hbad : helperVocab.contains bad = false) :
    compile tn (pre ++ bad :: post) =
      .error { atToken := bad, message := unknownHelperMessage } := by
  simp [compile, checkHelpers_error bad post hbad pre false false false hpre]

/-- Witness for C6 at the token list (Player, fields, bogus). -/
theorem unknown_helper_token_fails_witness :
    validTokens ["fields"] = true
    ∧ helperVocab.contains "bogus" = false
    ∧ compile "Player" ["fields", "bogus"] =
        .error { atToken := "bogus", message := unknownHelperMessage } := by
  refine ⟨by decide, by decide, ?_⟩
  exact unknown_helper_token_fails "Player" "bogus" ["fields"] [] (by decide) (by decide)

/-- Claim C7: on a fully valid token list, assembly succeeds and the emitted
unit's field-table body calls the Fields helper iff selected, its
method-table body calls the Methods helper iff selected followed by the
Variants helper iff selected; the Variants helper is only ever wired into
the method-table body, never the field-table body. -/
theorem valid_selection_assembles_unit (tn : String) (helpers : List String)
    (h : validTokens helpers = true) :
    compile tn helpers = .ok (assembledUnit tn helpers)
    ∧ (assembledUnit tn helpers).addFieldsBody.contains HelperCall.toMluaFields
        = helpers.contains "fields"
    ∧ (assembledUnit tn helpers).addMethodsBody.contains HelperCall.toMluaMethods
        = helpers.contains "methods"
    ∧ (assembledUnit tn helpers).addMethodsBody.contains HelperCall.toMluaVariants
        = helpers.contains "variants"
    ∧ (assembledUnit tn helpers).addFieldsBody.contains HelperCall.toMluaVariants = false
    ∧ (assembledUnit tn helpers).addMethodsBody.contains HelperCall.toMluaFields = false := by
  refine ⟨?_, ?_, ?_, ?_, ?_, ?_⟩
  · simp [compile, checkHelpers_ok helpers false false false h, assembledUnit]
  all_goals
    cases hf : helpers.contains "fields" <;>
      cases hm : helpers.contains "methods" <;>
        cases hv : helpers.contains "variants" <;>
          simp_all [assembledUnit]

/-- Witness for C7 at the token list (Player, fields, methods). -/
theorem valid_selection_assembles_unit_witness :
    validTokens ["fields", "methods"] = true
    ∧ (compile "Player" ["fields", "methods"] =
          .ok (assembledUnit "Player" ["fields", "methods"])
    ∧ (assembledUnit "Player" ["fields", "methods"]).addFieldsBody.contains
        HelperCall.toMluaFields = (["fields", "methods"] : List String).contains "fields"
    ∧ (assembledUnit "Player" ["fields", "methods"]).addMethodsBody.contains
        HelperCall.toMluaMethods = (["fields", "methods"] : List String).contains "methods"
    ∧ (assembledUnit "Player" ["fields", "methods"]).addMethodsBody.contains
        HelperCall.toMluaVariants = (["fields", "methods"] : List String).contains "variants"
    ∧ (assembledUnit "Player" ["fields", "methods"]).addFieldsBody.contains
        HelperCall.toMluaVariants = false
    ∧ (assembledUnit "Player" ["fields", "methods"]).addMethodsBody.contains
        HelperCall.toMluaFields = false) := by
  refine ⟨by decide, ?_⟩
  exact valid_selection_assembles_unit "Player" ["fields", "methods"] (by decide)

/-- Claim C8: a record declaration with an unnamed field makes field
extraction abort with the build-time failure reporting the first offending
field's index; no field-table helper is produced for the declaration. -/
theorem unnamed_field_aborts_generation (s : ItemStruct) (i : Nat) (fd : FieldDecl)
    (hi : s.fields.toList[i]? = some fd) (hnone : fd.ident = none)
    (hfront : allNamed (s.fields.toList.take i) = true) :
    structureAttr s = .error (.fieldMissingName i "Field must have a name") := by
  have h := structureRegsFrom_error s.fields.toList 0 i fd hi hnone hfront
  simp [structureAttr, h]

/-- Witness for C8 at a struct whose second field is unnamed. -/
theorem unnamed_field_aborts_generation_witness :
    brokenStruct.fields.toList[1]? = some { ident := none, ty := "i32" }
    ∧ ({ ident := none, ty := "i32" } : FieldDecl).ident = none
    ∧ allNamed (brokenStruct.fields.toList.take 1) = true
    ∧ structureAttr brokenStruct = .error (.fieldMissingName 1 "Field must have a name") := by
  refine ⟨by decide, rfl, by decide, ?_⟩
  exact unnamed_field_aborts_generation brokenStruct 1 { ident := none, ty := "i32" }
    (by decide) rfl (by decide)

/-- Claim C10: each extractor macro re-emits the original declaration
unchanged (fields, variants and routines untouched), with the generated
helper appended after it. -/
theorem macros_emit_original_unchanged (s : ItemStruct) (e : ItemEnum) (i : ItemImpl)
    (out : StructOutput) (h : structureAttr s = .ok out) :
    out.original = s ∧ (enumeration e).original = e ∧ (implementation i).original = i := by
  refine ⟨?_, rfl, rfl⟩
  cases hr : structureRegsFrom 0 s.fields.toList with
  | error e0 => simp [structureAttr, hr] at h
  | ok regs =>
    simp only [structureAttr, hr, Except.ok.injEq] at h
    subst h
    rfl

/-- Witness for C10 at the Player declarations of the repository's test. -/
theorem macros_emit_original_unchanged_witness :
    structureAttr playerStruct =
      .ok { original := playerStruct, fieldRegs := getterEntries ["name", "hp", "status"] }
    ∧ (({ original := playerStruct, fieldRegs := getterEntries ["name", "hp", "status"] }
          : StructOutput).original = playerStruct
    ∧ (enumeration playerStatusEnum).original = playerStatusEnum
    ∧ (implementation playerImpl).original = playerImpl) := by
  refine ⟨rfl, ?_⟩
  exact macros_emit_original_unchanged playerStruct playerStatusEnum playerImpl
    { original := playerStruct, fieldRegs := getterEntries ["name", "hp", "status"] } rfl

end MluaMagic
